import Mathlib

/-!
Verification of the audio-transcription service core against its design document.

The development shallowly embeds the Python sources:
  - the AudioTranscriber pipeline of test.py (speaker assignment, speaker
    statistics, confidence, diarization fallback, process_audio);
  - the Celery task process_transcription and save_transcription_results of
    app/tasks.py together with the job-creation path of app/main.py, modelled
    as the list of committed job-record states;
  - the sliding-window RateLimiter of app/rate_limiter.py, with the Redis
    sorted set modelled as a finite set of integer-second timestamps (the
    member of each entry is the decimal string of its score, so the set of
    members is in bijection with the set of scores);
  - the storage round trip save_transcription_results followed by
    get_transcription_result of app/main.py, with SQL ORDER BY modelled as a
    stable sort of the inserted rows.

Python floats are modelled as exact rationals; the builtin round(x, 2) is
modelled as decimal round-half-to-even on rationals.  Python strings that are
manipulated character-wise (strip, split) are modelled as lists of characters;
speaker labels, which are only constructed and compared, are modelled as Lean
strings.
-/

/-- Nearest integer to a rational, ties going to the even integer.  This is
the rounding mode of the Python builtin round. -/
def roundHalfEven (q : ℚ) : ℤ :=
  let f := q.floor
  let r := q - f
  if r < 1/2 then f
  else if 1/2 < r then f + 1
  else if f % 2 = 0 then f else f + 1

/-- Model of the Python builtin round(x, 2): round to hundredths. -/
def round2 (q : ℚ) : ℚ :=
  (roundHalfEven (100 * q) : ℚ) / 100

/-- Model of the Python str.strip method on a list of characters. -/
def pythonStrip (l : List Char) : List Char :=
  (((l.dropWhile Char.isWhitespace).reverse.dropWhile Char.isWhitespace)).reverse

/-- Model of the Python str.split method with no argument: split on runs of
whitespace, discarding empty pieces. -/
def pythonSplit (l : List Char) : List (List Char) :=
  (l.splitOnP Char.isWhitespace).filter (· ≠ [])

/-! ## Rate limiter (app/rate_limiter.py)

The per-key Redis sorted set holds one entry per integer second at which a
request was recorded; zremrangebyscore(key, 0, window_start) removes the
scores lying in the closed interval from 0 to window_start, zcard counts the
survivors, and zadd inserts the current second.  The pipeline of
check_rate_limit always executes all four commands; the 429 rejection is
decided afterwards from the zcard result. -/

structure RateLimiter where
  max_requests : ℕ
  window_seconds : ℤ

/-- Constructor of RateLimiter: the source takes window_minutes and stores
window_minutes * 60 seconds. -/
def RateLimiter.ofMinutes (max_requests : ℕ) (window_minutes : ℤ) : RateLimiter :=
  { max_requests := max_requests, window_seconds := window_minutes * 60 }

/-- The zremrangebyscore(key, 0, now - window) step of check_rate_limit. -/
def evictOld (rl : RateLimiter) (st : Finset ℤ) (now : ℤ) : Finset ℤ :=
  st.filter (fun t => ¬(0 ≤ t ∧ t ≤ now - rl.window_seconds))

/-- Model of RateLimiter.check_rate_limit: returns whether the call is
allowed (false models raising the 429 HTTPException) together with the
per-key state after the call.  The zadd of the current timestamp happens
inside the pipeline, before the count is compared with the maximum. -/
def checkRateLimit (rl : RateLimiter) (st : Finset ℤ) (now : ℤ) : Bool × Finset ℤ :=
  let evicted := evictOld rl st now
  let request_count := evicted.card
  (decide (request_count < rl.max_requests), insert now evicted)

/-- Runs check_rate_limit once per timestamp in the list, threading the
per-key state, and collects the allow/deny verdicts. -/
def runCalls (rl : RateLimiter) (st : Finset ℤ) : List ℤ → List Bool × Finset ℤ
  | [] => ([], st)
  | t :: ts =>
    let r := checkRateLimit rl st t
    let rest := runCalls rl r.2 ts
    (r.1 :: rest.1, rest.2)

/-! ## Job records and the background task (app/models.py, app/tasks.py, app/main.py) -/

/-- Status column of a transcription session. -/
inductive JobStatus where
  | pending
  | processing
  | completed
  | failed
deriving DecidableEq

/-- The claim-relevant columns of a TranscriptionSession row. -/
structure JobRecord where
  status : JobStatus
  progress : ℕ
  error_message : Option String
  language : Option String
  duration_seconds : Option ℚ
  confidence_score : Option ℚ
deriving DecidableEq

/-- The session row created by create_transcription_task in app/main.py:
status pending, progress at its column default 0, all result columns null. -/
def createdJob : JobRecord :=
  { status := JobStatus.pending, progress := 0, error_message := none,
    language := none, duration_seconds := none, confidence_score := none }

/-- Allowed single transitions of the job state machine of the design
document: pending to processing, processing to processing (progress
checkpoints), processing to a terminal state.  Nothing leaves a terminal
state. -/
def transitionOk : JobStatus → JobStatus → Bool
  | JobStatus.pending, JobStatus.processing => true
  | JobStatus.processing, JobStatus.processing => true
  | JobStatus.processing, JobStatus.completed => true
  | JobStatus.processing, JobStatus.failed => true
  | _, _ => false

/-- A step of the committed-state trace: an allowed status transition with
non-decreasing progress. -/
def stepOk (j j' : JobRecord) : Prop :=
  transitionOk j.status j'.status = true ∧ j.progress ≤ j'.progress

instance : DecidableRel stepOk := fun j j' =>
  inferInstanceAs (Decidable (transitionOk j.status j'.status = true ∧ j.progress ≤ j'.progress))

/-! ## ASR output and the speaker assignment engine (test.py) -/

/-- A word entry of a Whisper segment: token text with start and stop times. -/
structure WhisperWord where
  word : List Char
  start : ℚ
  «end» : ℚ
deriving DecidableEq

/-- A Whisper segment: sentence text, span, optional word list (the words key
may be absent), optional average log-probability. -/
structure WhisperSegment where
  text : List Char
  start : ℚ
  «end» : ℚ
  words : Option (List WhisperWord)
  avg_logprob : Option ℚ
deriving DecidableEq

/-- A Whisper transcription result; the language key may be absent. -/
structure WhisperResult where
  language : Option String
  segments : List WhisperSegment
deriving DecidableEq

/-- Speaker segments as produced by perform_diarization: an
insertion-ordered dictionary from speaker label to interval list. -/
abbrev SpeakerSegments := List (String × List (ℚ × ℚ))

/-- Containment test of the assignment loop: seg_start less-or-equal mid
less-or-equal seg_end. -/
def containsMid (m : ℚ) (p : ℚ × ℚ) : Bool :=
  decide (p.1 ≤ m ∧ m ≤ p.2)

/-- The nested speaker-scan loop of assign_speakers_to_words.  The inner
for-loop sets assigned to the label owning the first interval that contains
the midpoint and breaks; since every interval of a group carries the same
label this is an any-test.  The outer loop then breaks exactly when assigned
differs from the default label. -/
def assignLoop (m : ℚ) : SpeakerSegments → String → String
  | [], assigned => assigned
  | (speaker_id, segments) :: rest, assigned =>
    let assigned2 := if segments.any (containsMid m) then speaker_id else assigned
    if assigned2 ≠ "speaker_1" then assigned2 else assignLoop m rest assigned2

/-- Speaker assigned to a word midpoint by assign_speakers_to_words,
starting from the default label. -/
def assignSpeaker (spk : SpeakerSegments) (m : ℚ) : String :=
  assignLoop m spk "speaker_1"

/-- Word synthesis of assign_speakers_to_words for a segment without
word-level timestamps: split the text on whitespace and divide the segment
duration evenly among the tokens. -/
def synthWords (seg : WhisperSegment) : List WhisperWord :=
  let words := pythonSplit seg.text
  let segment_duration := seg.«end» - seg.start
  let word_duration := if words.length = 0 then 0 else segment_duration / words.length
  words.enum.map (fun p =>
    { word := p.2,
      start := seg.start + p.1 * word_duration,
      «end» := seg.start + (p.1 + 1) * word_duration })

/-- The all_words list of assign_speakers_to_words: the concatenation of the
word lists of the segments that have one; if that list is empty, the words
synthesized from the segment texts. -/
def extractAllWords (wr : WhisperResult) : List WhisperWord :=
  let fromSegments := (wr.segments.filterMap (fun s => s.words)).flatten
  if fromSegments.isEmpty then wr.segments.flatMap synthWords else fromSegments

/-- An annotated transcript word as appended by assign_speakers_to_words:
stripped token, times rounded to hundredths, assigned speaker label. -/
structure TranscriptWord where
  word : List Char
  start : ℚ
  «end» : ℚ
  speaker : String
deriving DecidableEq

/-- The body of the assignment loop of assign_speakers_to_words for one
word. -/
def annotateWord (spk : SpeakerSegments) (w : WhisperWord) : TranscriptWord :=
  let word_mid := (w.start + w.«end») / 2
  { word := pythonStrip w.word,
    start := round2 w.start,
    «end» := round2 w.«end»,
    speaker := assignSpeaker spk word_mid }

/-- AudioTranscriber.assign_speakers_to_words of test.py. -/
def assign_speakers_to_words (wr : WhisperResult) (spk : SpeakerSegments) : List TranscriptWord :=
  (extractAllWords wr).map (annotateWord spk)

/-! ## Speaker statistics and confidence (test.py) -/

/-- One entry of the speakers list built by calculate_speaker_stats. -/
structure SpeakerStat where
  id : String
  total_sec : ℚ
deriving DecidableEq

/-- Adding a duration to the per-speaker running total: the Python dict is
modelled as an insertion-ordered association list. -/
def bumpTime : List (String × ℚ) → String → ℚ → List (String × ℚ)
  | [], k, d => [(k, d)]
  | (k', v) :: rest, k, d =>
    if k' = k then (k', v + d) :: rest else (k', v) :: bumpTime rest k d

/-- The speaker_times dict of calculate_speaker_stats. -/
def speaker_times (tws : List TranscriptWord) : List (String × ℚ) :=
  tws.foldl (fun acc w => bumpTime acc w.speaker (w.«end» - w.start)) []

/-- Descending comparison used to sort speaker statistics by total speaking
time; list.sort with reverse=True is a stable descending sort. -/
def statGE (a b : SpeakerStat) : Prop := b.total_sec ≤ a.total_sec

instance : DecidableRel statGE := fun a b => inferInstanceAs (Decidable (b.total_sec ≤ a.total_sec))

instance : IsTotal SpeakerStat statGE := ⟨fun a b => le_total b.total_sec a.total_sec⟩

instance : IsTrans SpeakerStat statGE := ⟨fun _ _ _ h h' => le_trans h' h⟩

/-- AudioTranscriber.calculate_speaker_stats of test.py: per-speaker totals
rounded to hundredths, sorted by total speaking time descending. -/
def calculate_speaker_stats (tws : List TranscriptWord) : List SpeakerStat :=
  List.insertionSort statGE
    ((speaker_times tws).map (fun p => { id := p.1, total_sec := round2 p.2 }))

/-- AudioTranscriber.calculate_confidence of test.py.  The exponential of
numpy is a foreign real-valued function; it enters the model as the
parameter expf. -/
def calculate_confidence (expf : ℚ → ℚ) (wr : WhisperResult) : ℚ :=
  let segment_confidences :=
    wr.segments.filterMap (fun s => s.avg_logprob.map (fun lp => max 0 (min 1 (expf lp))))
  if segment_confidences.isEmpty then 85/100
  else round2 (segment_confidences.sum / segment_confidences.length)

/-! ## Diarization and the full pipeline (test.py) -/

/-- Outcome of the diarization dependency: the pipeline object is None, the
pipeline raised, or the pipeline produced labelled turns (label, start,
stop). -/
inductive DiarOutcome where
  | unavailable
  | failure (msg : String)
  | success (turns : List (String × ℚ × ℚ))

/-- Label normalisation of the successful diarization path: prefix
speaker_ to the part of the raw label after the last underscore, or to the
whole label when it has no underscore. -/
def diarLabel (speaker : String) : String :=
  let parts := speaker.splitOn "_"
  "speaker_" ++ (if parts.length > 1 then parts.getLastD speaker else speaker)

/-- Grouping of labelled turns into the insertion-ordered speaker dictionary
of perform_diarization. -/
def appendToGroup : SpeakerSegments → String → (ℚ × ℚ) → SpeakerSegments
  | [], sid, p => [(sid, [p])]
  | (k, ps) :: rest, sid, p =>
    if k = sid then (k, ps ++ [p]) :: rest else (k, ps) :: appendToGroup rest sid p

/-- Builds the speaker-segments dictionary from a list of labelled turns,
preserving first-occurrence key order. -/
def groupPairs (turns : List (String × ℚ × ℚ)) : SpeakerSegments :=
  turns.foldl (fun acc t => appendToGroup acc t.1 t.2) []

/-- The while-loop of the diarization-unavailable fallback of
perform_diarization, written with explicit fuel: while the current time is
before the end of the recording, emit a window of at most 30 seconds and
alternate the speaker id between 1 and 2. -/
def fallbackLoop : ℕ → ℚ → ℚ → ℕ → List (String × ℚ × ℚ)
  | 0, _, _, _ => []
  | fuel + 1, current_time, duration, speaker_id =>
    if current_time < duration then
      let end_time := min (current_time + 30) duration
      ("speaker_" ++ toString speaker_id, current_time, end_time) ::
        fallbackLoop fuel end_time duration (if speaker_id = 1 then 2 else 1)
    else []

/-- The segments list built by the diarization-unavailable fallback; the
fuel bound is one step per started 30-second window. -/
def fallbackSegments (duration : ℚ) : List (String × ℚ × ℚ) :=
  fallbackLoop (⌈duration / 30⌉.toNat) 0 duration 1

/-- AudioTranscriber.perform_diarization of test.py: the unavailable-pipeline
branch synthesizes alternating 30-second windows, the exception branch
returns the single-speaker whole-range fallback, and the successful branch
groups the labelled turns by normalised label. -/
def perform_diarization (outcome : DiarOutcome) (duration : ℚ) : SpeakerSegments :=
  match outcome with
  | DiarOutcome.unavailable => groupPairs (fallbackSegments duration)
  | DiarOutcome.failure _ => [("speaker_1", [(0, 999999)])]
  | DiarOutcome.success turns => groupPairs (turns.map (fun t => (diarLabel t.1, t.2)))

/-- The result object built by AudioTranscriber.process_audio of test.py. -/
structure ResultObj where
  language : String
  duration_sec : ℚ
  transcript : List TranscriptWord
  speakers : List SpeakerStat
  confidence : ℚ
deriving DecidableEq

/-- AudioTranscriber.process_audio of test.py, parametrised by the recording
duration, the Whisper result, the diarization outcome and the foreign
exponential. -/
def process_audio (expf : ℚ → ℚ) (duration : ℚ) (wr : WhisperResult)
    (outcome : DiarOutcome) : ResultObj :=
  let speaker_segments := perform_diarization outcome duration
  let transcript_words := assign_speakers_to_words wr speaker_segments
  { language := wr.language.getD "en",
    duration_sec := round2 duration,
    transcript := transcript_words,
    speakers := calculate_speaker_stats transcript_words,
    confidence := calculate_confidence expf wr }

/-! ## The background task as a trace of committed job records (app/tasks.py) -/

/-- The list of committed states of the job record along one run of
process_transcription, starting from the created record.  loadFail models
get_transcriber raising, pipe models the outcome of process_audio (an error
models an exception escaping an adapter, the assignment engine or the result
builder), saveFail models save_transcription_results raising, and
notifyFail models the current_task.update_state call that sits inside the
try block after the completed commit raising (for example when the task
backend is unreachable).  The except branch of the task sets status failed
and the error message on whatever record is stored and leaves progress and
the result columns untouched; in particular a notification failure after
the completed commit overwrites an already-completed record.  The
update_state calls before completion raise into the same handler at the
same committed progress values as the neighbouring failure points, so their
committed traces coincide with the loadFail, pipe and saveFail traces. -/
def runTrace (loadFail : Option String) (pipe : Except String ResultObj)
    (saveFail notifyFail : Option String) : List JobRecord :=
  let j0 := createdJob
  let j1 := { j0 with status := JobStatus.processing, progress := 10 }
  match loadFail with
  | some msg => [j0, j1, { j1 with status := JobStatus.failed, error_message := some msg }]
  | none =>
    let j2 := { j1 with progress := 20 }
    match pipe with
    | Except.error msg =>
        [j0, j1, j2, { j2 with status := JobStatus.failed, error_message := some msg }]
    | Except.ok r =>
      let j3 := { j2 with progress := 80 }
      match saveFail with
      | some msg =>
          [j0, j1, j2, j3, { j3 with status := JobStatus.failed, error_message := some msg }]
      | none =>
        let j4 := { j3 with
          status := JobStatus.completed, progress := 100,
          language := some r.language,
          duration_seconds := some r.duration_sec,
          confidence_score := some r.confidence }
        match notifyFail with
        | none => [j0, j1, j2, j3, j4]
        | some msg =>
            [j0, j1, j2, j3, j4,
              { j4 with status := JobStatus.failed, error_message := some msg }]

/-! ## Persistence and reconstruction (app/tasks.py, app/main.py) -/

/-- The claim-relevant columns of the session row of a completed job
together with its child rows: transcript words and speaker rows in insertion
order. -/
structure StoredResults where
  session : JobRecord
  word_rows : List TranscriptWord
  speaker_rows : List SpeakerStat
deriving DecidableEq

/-- The persistence step of a successful run: save_transcription_results of
app/tasks.py inserts one row per transcript word and per speaker entry in
list order, and the completion block of process_transcription stores
language, duration and confidence on the session row. -/
def persistCompleted (r : ResultObj) : StoredResults :=
  { session :=
      { status := JobStatus.completed, progress := 100, error_message := none,
        language := some r.language, duration_seconds := some r.duration_sec,
        confidence_score := some r.confidence },
    word_rows := r.transcript,
    speaker_rows := r.speakers }

/-- Ascending comparison on stored words by start time, the ORDER BY key of
get_transcription_result. -/
def wordLE (a b : TranscriptWord) : Prop := a.start ≤ b.start

instance : DecidableRel wordLE := fun a b => inferInstanceAs (Decidable (a.start ≤ b.start))

instance : IsTotal TranscriptWord wordLE := ⟨fun a b => le_total a.start b.start⟩

instance : IsTrans TranscriptWord wordLE := ⟨fun _ _ _ h h' => le_trans h h'⟩

/-- Model of the Python expression x or d for a nullable string column:
None and the empty string are falsy. -/
def pyOrStr (o : Option String) (d : String) : String :=
  match o with
  | none => d
  | some s => if s = "" then d else s

/-- Model of the Python expression x or d for a nullable numeric column:
None and zero are falsy. -/
def pyOrQ (o : Option ℚ) (d : ℚ) : ℚ :=
  match o with
  | none => d
  | some q => if q = 0 then d else q

/-- get_transcription_result of app/main.py: rebuild the result object from
storage, reading words ordered by start time and speakers ordered by total
seconds descending (SQL ORDER BY modelled as a stable sort of the inserted
rows), defaulting falsy session columns. -/
def get_transcription_result (st : StoredResults) : ResultObj :=
  { language := pyOrStr st.session.language "en",
    duration_sec := pyOrQ st.session.duration_seconds 0,
    transcript := List.insertionSort wordLE st.word_rows,
    speakers := List.insertionSort statGE st.speaker_rows,
    confidence := pyOrQ st.session.confidence_score (85/100) }

/-! ## Spec-side definitions used for comparison -/

/-- The intervals of a speaker dictionary flattened in scan order, each
tagged with its owning label. -/
def flattenSegments (spk : SpeakerSegments) : List (String × (ℚ × ℚ)) :=
  spk.flatMap (fun g => g.2.map (fun p => (g.1, p)))

/-- Modelled from the claim wording: the label of the first interval in scan
order whose range contains the midpoint, defaulting to speaker_1. -/
def firstIntervalLabel (spk : SpeakerSegments) (m : ℚ) : String :=
  (((flattenSegments spk).find? (fun q => containsMid m q.2)).map (fun q => q.1)).getD "speaker_1"

/-- Sum of the durations of the words assigned to one speaker label. -/
def groupTotal (tws : List TranscriptWord) (sid : String) : ℚ :=
  ((tws.filter (fun w => w.speaker = sid)).map (fun w => w.«end» - w.start)).sum

/-- A limiter with the configuration of the testable property of the design
document: three requests per sixty-second window. -/
def rl3 : RateLimiter := RateLimiter.ofMinutes 3 1

/-! ## Theorems -/

/-- C7 counterexample: with three surviving timestamps and a maximum of
three, the call at second 40 is denied, yet the per-key state afterwards is
not the evicted pre-state: the denied attempt was recorded, because the
pipeline of check_rate_limit adds the current timestamp before the count is
compared with the maximum. -/
theorem c7_counterexample :
    (checkRateLimit rl3 {10, 20, 30} 40).1 = false ∧
    (checkRateLimit rl3 {10, 20, 30} 40).2 ≠ evictOld rl3 {10, 20, 30} 40 := by
  decide

/-- C7 (corrected): a denied call of check_rate_limit still records the new
attempt.  The state after a denied call is the eviction of the pre-state
with the current timestamp inserted, the current timestamp is a member of
the post-state, and the denial happens exactly when the count of surviving
timestamps already reached the maximum. -/
theorem c7_denied_call_still_records (rl : RateLimiter) (st : Finset ℤ) (now : ℤ)
    (hdeny : (checkRateLimit rl st now).1 = false) :
    (checkRateLimit rl st now).2 = insert now (evictOld rl st now) ∧
    now ∈ (checkRateLimit rl st now).2 ∧
    rl.max_requests ≤ (evictOld rl st now).card := by
  refine ⟨rfl, Finset.mem_insert_self _ _, ?_⟩
  simp only [checkRateLimit, decide_eq_false_iff_not, not_lt] at hdeny
  exact hdeny

/-- Witness for C7: the corrected statement evaluated on the concrete
denied call of the counterexample. -/
theorem c7_witness :
    (checkRateLimit rl3 {10, 20, 30} 40).2 = insert 40 (evictOld rl3 {10, 20, 30} 40) ∧
    (40 : ℤ) ∈ (checkRateLimit rl3 {10, 20, 30} 40).2 ∧
    rl3.max_requests ≤ (evictOld rl3 {10, 20, 30} 40).card :=
  c7_denied_call_still_records rl3 {10, 20, 30} 40 (by decide)

/-- C8 counterexample: four calls within one window are not always
answered allow, allow, allow, deny, because the sorted-set member is the
decimal string of the integer second: two calls in the same second collapse
into one entry.  Four calls at seconds 10, 10, 11 and 12 are all allowed. -/
theorem c8_counterexample :
    (runCalls rl3 ∅ [10, 10, 11, 12]).1 = [true, true, true, true] ∧
    [true, true, true, true] ≠ [true, true, true, false] :=
  ⟨by decide, by decide⟩

/-- C8 (corrected): with a maximum of three requests per sixty-second
window, four calls at strictly increasing integer seconds inside one window
are answered allow, allow, allow, deny, and a fifth call made once the
window has elapsed after the fourth is answered allow again.  The
distinctness of the seconds is needed: calls sharing a second collapse into
one recorded entry. -/
theorem c8_scenario (t1 t2 t3 t4 t5 : ℤ)
    (h0 : 0 ≤ t1) (h12 : t1 < t2) (h23 : t2 < t3) (h34 : t3 < t4)
    (hwin : t4 < t1 + 60) (h5 : t4 + 60 ≤ t5) :
    (runCalls rl3 ∅ [t1, t2, t3, t4, t5]).1 = [true, true, true, false, true] := by
  have hw : rl3.window_seconds = 60 := rfl
  have hm : rl3.max_requests = 3 := rfl
  have e1 : checkRateLimit rl3 ∅ t1 = (true, {t1}) := by
    simp [checkRateLimit, evictOld, hm]
  have f2 : evictOld rl3 {t1} t2 = {t1} := by
    rw [evictOld, Finset.filter_singleton, if_pos]
    rw [hw]; omega
  have e2 : checkRateLimit rl3 {t1} t2 = (true, {t2, t1}) := by
    simp [checkRateLimit, f2, hm]
  have f3 : evictOld rl3 {t2, t1} t3 = {t2, t1} := by
    rw [evictOld, Finset.filter_insert, Finset.filter_singleton, if_pos, if_pos]
    · rw [hw]; omega
    · rw [hw]; omega
  have card2 : ({t2, t1} : Finset ℤ).card = 2 := by
    rw [Finset.card_insert_of_not_mem (by simp; omega), Finset.card_singleton]
  have e3 : checkRateLimit rl3 {t2, t1} t3 = (true, {t3, t2, t1}) := by
    simp [checkRateLimit, f3, card2, hm]
  have f4 : evictOld rl3 {t3, t2, t1} t4 = {t3, t2, t1} := by
    rw [evictOld, Finset.filter_insert, Finset.filter_insert, Finset.filter_singleton,
      if_pos, if_pos, if_pos]
    · rw [hw]; omega
    · rw [hw]; omega
    · rw [hw]; omega
  have card3 : ({t3, t2, t1} : Finset ℤ).card = 3 := by
    rw [Finset.card_insert_of_not_mem (by simp; omega)] ; rw [card2]
  have e4 : checkRateLimit rl3 {t3, t2, t1} t4 = (false, {t4, t3, t2, t1}) := by
    simp [checkRateLimit, f4, card3, hm]
  have f5 : evictOld rl3 {t4, t3, t2, t1} t5 = ∅ := by
    rw [evictOld, Finset.filter_insert, Finset.filter_insert, Finset.filter_insert,
      Finset.filter_singleton, if_neg, if_neg, if_neg, if_neg]
    · rw [hw]; omega
    · rw [hw]; omega
    · rw [hw]; omega
    · rw [hw]; omega
  have e5 : checkRateLimit rl3 {t4, t3, t2, t1} t5 = (true, {t5}) := by
    simp [checkRateLimit, f5, hm]
  simp [runCalls, e1, e2, e3, e4, e5]

/-- Witness for C8: the scenario at seconds 0, 1, 2, 3 and 63. -/
theorem c8_witness :
    (runCalls rl3 ∅ [0, 1, 2, 3, 63]).1 = [true, true, true, false, true] :=
  c8_scenario 0 1 2 3 63 (by decide) (by decide) (by decide) (by decide) (by decide) (by decide)

/-- C2 counterexample: when the task-state notification after the
completed commit raises, the except handler commits failed on top of the
already-completed record: the committed trace ends completed at progress
100 followed by failed at progress 100, a step the state machine forbids
and a record with progress 100 whose status is not completed. -/
theorem c2_counterexample :
    (runTrace none
      (Except.ok
        { language := "en", duration_sec := 1, transcript := [], speakers := [],
          confidence := 1 })
      none (some "redis unavailable")).map (fun j => (j.status, j.progress)) =
      [(JobStatus.pending, 0), (JobStatus.processing, 10), (JobStatus.processing, 20),
        (JobStatus.processing, 80), (JobStatus.completed, 100), (JobStatus.failed, 100)] ∧
    ¬ stepOk
      { status := JobStatus.completed, progress := 100, error_message := none,
        language := some "en", duration_seconds := some 1, confidence_score := some 1 }
      { status := JobStatus.failed, progress := 100, error_message := some "redis unavailable",
        language := some "en", duration_seconds := some 1, confidence_score := some 1 } ∧
    ((100 : ℕ) = 100 ∧ JobStatus.failed ≠ JobStatus.completed) :=
  ⟨by decide, by decide, by decide⟩

/-- C2 (corrected): the committed job records start from the created
pending record, and on every run whose post-completion notification does
not raise every adjacent pair of committed states is an allowed transition
of the state machine (pending to processing to a terminal state, never
leaving a terminal state) with non-decreasing progress, progress is 100
exactly on records whose status is completed, and the successful run
commits the progress checkpoints 0, 10, 20, 80, 100.  The failure branches
never reach the notification, so their traces ignore it.  The one deviating
path: when the notification after the completed commit raises, the handler
overwrites the completed record as failed while progress stays 100 and the
result columns stay populated. -/
theorem c2_state_machine (loadFail : Option String) (pipe : Except String ResultObj)
    (saveFail notifyFail : Option String) :
    (runTrace loadFail pipe saveFail notifyFail).head? = some createdJob ∧
    createdJob.status = JobStatus.pending ∧
    List.Chain' stepOk (runTrace loadFail pipe saveFail none) ∧
    (∀ j ∈ runTrace loadFail pipe saveFail none,
      (j.progress = 100 ↔ j.status = JobStatus.completed)) ∧
    (∀ msg, runTrace (some msg) pipe saveFail notifyFail =
      runTrace (some msg) pipe saveFail none) ∧
    (∀ msg, runTrace none (Except.error msg) saveFail notifyFail =
      runTrace none (Except.error msg) saveFail none) ∧
    (∀ (r : ResultObj) (msg : String), runTrace none (Except.ok r) (some msg) notifyFail =
      runTrace none (Except.ok r) (some msg) none) ∧
    (∀ r : ResultObj, (runTrace none (Except.ok r) none none).map (fun j => j.progress) =
      [0, 10, 20, 80, 100]) ∧
    (∀ (r : ResultObj) (msg : String),
      (runTrace none (Except.ok r) none (some msg)).map (fun j => (j.status, j.progress)) =
        [(JobStatus.pending, 0), (JobStatus.processing, 10), (JobStatus.processing, 20),
          (JobStatus.processing, 80), (JobStatus.completed, 100), (JobStatus.failed, 100)] ∧
      (runTrace none (Except.ok r) none (some msg)).getLast? = some
        { status := JobStatus.failed, progress := 100, error_message := some msg,
          language := some r.language, duration_seconds := some r.duration_sec,
          confidence_score := some r.confidence }) := by
  refine ⟨?_, rfl, ?_, ?_, fun _ => rfl, fun _ => rfl, fun _ _ => rfl, fun r => rfl,
    fun r msg => ⟨rfl, rfl⟩⟩
  · cases loadFail <;> cases pipe <;> cases saveFail <;> cases notifyFail <;> rfl
  · cases loadFail <;> cases pipe <;> cases saveFail <;>
      simp [runTrace, stepOk, createdJob, transitionOk]
  · cases loadFail <;> cases pipe <;> cases saveFail <;>
      (intro j hj
       simp only [runTrace, createdJob, List.mem_cons, List.not_mem_nil, or_false] at hj
       rcases hj with h | h | h | h | h <;> (try subst h) <;> simp)

/-- Witness for C2: the progress-100 characterisation evaluated on the
second committed record of a run failing at model load. -/
theorem c2_witness :
    ({ status := JobStatus.processing, progress := 10, error_message := none,
       language := none, duration_seconds := none,
       confidence_score := none } : JobRecord).progress = 100 ↔
    ({ status := JobStatus.processing, progress := 10, error_message := none,
       language := none, duration_seconds := none,
       confidence_score := none } : JobRecord).status = JobStatus.completed :=
  (c2_state_machine (some "boom") (Except.error "x") none none).2.2.2.1 _ (by
    simp [runTrace, createdJob])

/-- C3: whichever pipeline step raises (model load, the audio pipeline, or
persistence), the final committed record has status failed, carries the
exception text as its non-null error message, keeps the result columns null,
and keeps the progress value reached before the failure: the committed
progress sequences are 0, 10, 10 and 0, 10, 20, 20 and 0, 10, 20, 80, 80. -/
theorem c3_failure_handling :
    (∀ (msg : String) (pipe : Except String ResultObj) (saveFail notifyFail : Option String),
      (runTrace (some msg) pipe saveFail notifyFail).getLast? = some
        { status := JobStatus.failed, progress := 10, error_message := some msg,
          language := none, duration_seconds := none, confidence_score := none } ∧
      (runTrace (some msg) pipe saveFail notifyFail).map (fun j => j.progress) = [0, 10, 10]) ∧
    (∀ (msg : String) (saveFail notifyFail : Option String),
      (runTrace none (Except.error msg) saveFail notifyFail).getLast? = some
        { status := JobStatus.failed, progress := 20, error_message := some msg,
          language := none, duration_seconds := none, confidence_score := none } ∧
      (runTrace none (Except.error msg) saveFail notifyFail).map (fun j => j.progress) =
        [0, 10, 20, 20]) ∧
    (∀ (r : ResultObj) (msg : String) (notifyFail : Option String),
      (runTrace none (Except.ok r) (some msg) notifyFail).getLast? = some
        { status := JobStatus.failed, progress := 80, error_message := some msg,
          language := none, duration_seconds := none, confidence_score := none } ∧
      (runTrace none (Except.ok r) (some msg) notifyFail).map (fun j => j.progress) =
        [0, 10, 20, 80, 80]) :=
  ⟨fun _ _ _ _ => ⟨rfl, rfl⟩, fun _ _ _ => ⟨rfl, rfl⟩, fun _ _ _ => ⟨rfl, rfl⟩⟩

/-- The outer scan of assign_speakers_to_words, started on the default
label, returns the label of the first speaker group other than the default
owning an interval that contains the midpoint, and the default label when
there is none: a containing interval owned by the default label leaves the
loop running because the break condition compares against the default. -/
lemma assignLoop_eq_find (m : ℚ) (spk : SpeakerSegments) :
    assignLoop m spk "speaker_1" =
      (((spk.find? (fun g => decide (g.1 ≠ "speaker_1") && g.2.any (containsMid m))).map
        (fun g => g.1)).getD "speaker_1") := by
  induction spk with
  | nil => rfl
  | cons g rest ih =>
    obtain ⟨sid, segs⟩ := g
    by_cases hmatch : segs.any (containsMid m)
    · by_cases hsid : sid = "speaker_1"
      · subst hsid
        simpa [assignLoop, List.find?, hmatch] using ih
      · simp [assignLoop, List.find?, hmatch, hsid]
    · simpa [assignLoop, List.find?, hmatch] using ih

/-- Membership in the flattened interval list unfolds to membership of the
interval in a group of the dictionary. -/
lemma mem_flattenSegments {spk : SpeakerSegments} {sid : String} {p : ℚ × ℚ} :
    (sid, p) ∈ flattenSegments spk ↔ ∃ g ∈ spk, g.1 = sid ∧ p ∈ g.2 := by
  simp only [flattenSegments, List.mem_flatMap, List.mem_map]
  constructor
  · rintro ⟨g, hg, q, hq, heq⟩
    obtain ⟨h1, h2⟩ := Prod.mk.injEq .. ▸ heq
    exact ⟨g, hg, by simp_all⟩
  · rintro ⟨g, hg, h1, h2⟩
    exact ⟨g, hg, p, h2, by simp [h1]⟩

/-- C1 (corrected): the engine does not pick the first containing interval
of the whole scan; it assigns the label of the first speaker group other
than the default speaker_1 owning an interval containing the word midpoint,
and the default label otherwise.  In particular a word whose midpoint lies
strictly inside exactly one interval (no other interval containing it, even
on its boundary) is assigned the label owning that interval, and a word
whose midpoint lies in no interval is assigned the default label. -/
theorem c1_assignment (spk : SpeakerSegments) (m : ℚ) (wr : WhisperResult) (sid : String) :
    ((assign_speakers_to_words wr spk).map (fun w => w.speaker) =
      (extractAllWords wr).map (fun w =>
        (((spk.find? (fun g => decide (g.1 ≠ "speaker_1") &&
            g.2.any (containsMid ((w.start + w.«end») / 2)))).map
          (fun g => g.1)).getD "speaker_1"))) ∧
    ((∃ p, (sid, p) ∈ flattenSegments spk ∧ p.1 < m ∧ m < p.2) →
     (∀ q ∈ flattenSegments spk, containsMid m q.2 = true → q.1 = sid) →
     assignSpeaker spk m = sid) ∧
    ((∀ q ∈ flattenSegments spk, containsMid m q.2 = false) →
     assignSpeaker spk m = "speaker_1") := by
  refine ⟨?_, ?_, ?_⟩
  · simp only [assign_speakers_to_words, List.map_map]
    apply List.map_congr_left
    intro w _
    simp only [Function.comp, annotateWord, assignSpeaker, assignLoop_eq_find]
  · rintro ⟨p, hmem, hlt1, hlt2⟩ huniq
    rw [assignSpeaker, assignLoop_eq_find]
    by_cases hsid : sid = "speaker_1"
    · subst hsid
      have hnone : spk.find? (fun g => decide (g.1 ≠ "speaker_1") &&
          g.2.any (containsMid m)) = none := by
        rw [List.find?_eq_none]
        intro g hg
        simp only [Bool.and_eq_true, decide_eq_true_eq, List.any_eq_true, not_and]
        rintro hne ⟨q, hq, hcont⟩
        exact hne (huniq (g.1, q) (mem_flattenSegments.mpr ⟨g, hg, rfl, hq⟩) hcont)
      rw [hnone]; rfl
    · obtain ⟨g, hgmem, h1, h2⟩ := mem_flattenSegments.mp hmem
      have hpred : (fun g => decide (g.1 ≠ "speaker_1") && g.2.any (containsMid m)) g = true := by
        simp only [Bool.and_eq_true, decide_eq_true_eq, List.any_eq_true]
        exact ⟨h1 ▸ hsid, p, h2, by simp [containsMid]; exact ⟨le_of_lt hlt1, le_of_lt hlt2⟩⟩
      have hsome : (spk.find? (fun g => decide (g.1 ≠ "speaker_1") &&
          g.2.any (containsMid m))).isSome := by
        rw [List.find?_isSome]
        exact ⟨g, hgmem, hpred⟩
      obtain ⟨g', hfind⟩ := Option.isSome_iff_exists.mp hsome
      have hg'mem : g' ∈ spk := List.mem_of_find?_eq_some hfind
      have hg'pred := List.find?_some hfind
      simp only [Bool.and_eq_true, decide_eq_true_eq, List.any_eq_true] at hg'pred
      obtain ⟨hne', q', hq', hcont'⟩ := hg'pred
      have : g'.1 = sid := huniq (g'.1, q') (mem_flattenSegments.mpr ⟨g', hg'mem, rfl, hq'⟩) hcont'
      rw [hfind]
      simpa using this
  · intro hnone
    rw [assignSpeaker, assignLoop_eq_find]
    have : spk.find? (fun g => decide (g.1 ≠ "speaker_1") && g.2.any (containsMid m)) = none := by
      rw [List.find?_eq_none]
      intro g hg
      simp only [Bool.and_eq_true, decide_eq_true_eq, List.any_eq_true, not_and]
      rintro _ ⟨q, hq, hcont⟩
      have := hnone (g.1, q) (mem_flattenSegments.mpr ⟨g, hg, rfl, hq⟩)
      simp [hcont] at this
    rw [this]; rfl

/-- Witness for C1: the unique-interval and the no-interval conclusions
evaluated on a one-speaker dictionary. -/
theorem c1_witness :
    assignSpeaker [("speaker_2", [((0 : ℚ), 10)])] 5 = "speaker_2" ∧
    assignSpeaker [("speaker_2", [((0 : ℚ), 10)])] 100 = "speaker_1" :=
  ⟨(c1_assignment [("speaker_2", [((0 : ℚ), 10)])] 5
      { language := none, segments := [] } "speaker_2").2.1
      ⟨((0 : ℚ), 10), by decide, by norm_num, by norm_num⟩
      (by decide),
   (c1_assignment [("speaker_2", [((0 : ℚ), 10)])] 100
      { language := none, segments := [] } "speaker_2").2.2
      (by decide)⟩

/-- C1 counterexample: the word midpoint 6 is first contained in the
speaker_1 interval of the scan, so the claim predicts label speaker_1, but
the engine assigns speaker_2 because a match on the default label does not
break the outer loop. -/
theorem c1_counterexample :
    assign_speakers_to_words
      { language := some "en",
        segments := [{ text := "hi".toList, start := 5, «end» := 7,
                       words := some [{ word := "hi".toList, start := 5, «end» := 7 }],
                       avg_logprob := none }] }
      [("speaker_1", [(0, 10)]), ("speaker_2", [(5, 10)])]
      = [{ word := "hi".toList, start := 5, «end» := 7, speaker := "speaker_2" }] ∧
    firstIntervalLabel [("speaker_1", [((0 : ℚ), 10)]), ("speaker_2", [(5, 10)])] 6 = "speaker_1" ∧
    "speaker_2" ≠ "speaker_1" := by
  refine ⟨by with_unfolding_all decide, by with_unfolding_all decide, by decide⟩

/-- The rational floor is a lower bound. -/
lemma rat_floor_le (q : ℚ) : (q.floor : ℚ) ≤ q := Rat.le_floor.mp le_rfl

/-- The rational floor plus one is a strict upper bound. -/
lemma rat_lt_floor_add_one (q : ℚ) : q < q.floor + 1 := by
  by_contra h
  push_neg at h
  have h2 : q.floor + 1 ≤ q.floor := Rat.le_floor.mpr (by push_cast; linarith)
  omega

/-- Rounding to the nearest integer moves a rational by at most one half. -/
lemma abs_sub_roundHalfEven (q : ℚ) : |q - (roundHalfEven q : ℚ)| ≤ 1/2 := by
  have h1 := rat_floor_le q
  have h2 := rat_lt_floor_add_one q
  rw [roundHalfEven]
  split_ifs with ha hb hc <;> push_cast <;> rw [abs_le] <;> constructor <;> linarith

/-- Rounding to hundredths moves a rational by at most 1/200. -/
lemma abs_sub_round2 (q : ℚ) : |q - round2 q| ≤ 1/200 := by
  have h := abs_sub_roundHalfEven (100 * q)
  rw [round2]
  have e : q - (roundHalfEven (100 * q) : ℚ) / 100 = (100 * q - (roundHalfEven (100 * q) : ℚ)) / 100 := by
    ring
  rw [e, abs_div, abs_of_pos (by norm_num : (0:ℚ) < 100)]
  linarith

/-- bumpTime keeps the key list, appending the key only when it is new. -/
lemma keys_bumpTime (al : List (String × ℚ)) (k : String) (d : ℚ) :
    (bumpTime al k d).map Prod.fst =
      if k ∈ al.map Prod.fst then al.map Prod.fst else al.map Prod.fst ++ [k] := by
  induction al with
  | nil => simp [bumpTime]
  | cons a rest ih =>
    obtain ⟨k', v⟩ := a
    by_cases h : k' = k
    · subst h
      simp [bumpTime]
    · simp only [bumpTime, if_neg h, List.map_cons, List.mem_cons, ih]
      by_cases hmem : k ∈ rest.map Prod.fst
      · simp [hmem, h, Ne.symm h]
      · simp [hmem, h, Ne.symm h]

/-- bumpTime adds the duration to the looked-up total of its key. -/
lemma lookup_bumpTime_self (al : List (String × ℚ)) (k : String) (d : ℚ) :
    (bumpTime al k d).lookup k = some ((al.lookup k).getD 0 + d) := by
  induction al with
  | nil => simp [bumpTime, List.lookup]
  | cons a rest ih =>
    obtain ⟨k', v⟩ := a
    by_cases h : k' = k
    · subst h
      simp [bumpTime, List.lookup]
    · simp [bumpTime, List.lookup, h, Ne.symm h, beq_false_of_ne, ih]

/-- bumpTime leaves the totals of other keys unchanged. -/
lemma lookup_bumpTime_other (al : List (String × ℚ)) (k k' : String) (d : ℚ)
    (h : k' ≠ k) : (bumpTime al k d).lookup k' = al.lookup k' := by
  induction al with
  | nil => simp [bumpTime, List.lookup, beq_false_of_ne h]
  | cons a rest ih =>
    obtain ⟨ka, v⟩ := a
    by_cases hk : ka = k
    · subst hk
      simp [bumpTime, List.lookup, beq_false_of_ne h]
    · by_cases hk' : k' = ka
      · subst hk'
        simp [bumpTime, List.lookup, hk]
      · simp [bumpTime, List.lookup, hk, beq_false_of_ne hk', ih]

/-- The group total over no words is zero. -/
lemma groupTotal_nil (sid : String) : groupTotal [] sid = 0 := rfl

/-- The group total over a word and a rest splits off the word duration
when the word belongs to the group. -/
lemma groupTotal_cons (w : TranscriptWord) (rest : List TranscriptWord) (sid : String) :
    groupTotal (w :: rest) sid =
      (if w.speaker = sid then w.«end» - w.start else 0) + groupTotal rest sid := by
  by_cases h : w.speaker = sid <;> simp [groupTotal, List.filter_cons, h]

/-- Folding the words over bumpTime adds the group total of a key already
present in the accumulator. -/
lemma lookup_foldl_bump_some (tws : List TranscriptWord) (acc : List (String × ℚ))
    (sid : String) (v : ℚ) (h : acc.lookup sid = some v) :
    (tws.foldl (fun a w => bumpTime a w.speaker (w.«end» - w.start)) acc).lookup sid =
      some (v + groupTotal tws sid) := by
  induction tws generalizing acc v with
  | nil => simpa [groupTotal_nil] using h
  | cons w rest ih =>
    simp only [List.foldl_cons]
    by_cases hs : w.speaker = sid
    · subst hs
      have hb := lookup_bumpTime_self acc w.speaker (w.«end» - w.start)
      rw [h] at hb
      rw [ih _ _ hb, groupTotal_cons]
      simp [add_assoc]
    · have hb := lookup_bumpTime_other acc w.speaker sid (w.«end» - w.start) (fun e => hs e.symm)
      rw [h] at hb
      rw [ih _ _ hb, groupTotal_cons, if_neg hs, zero_add]

/-- Folding the words over bumpTime maps a key absent from the accumulator
to its group total when the key occurs, and to nothing otherwise. -/
lemma lookup_foldl_bump_none (tws : List TranscriptWord) (acc : List (String × ℚ))
    (sid : String) (h : acc.lookup sid = none) :
    (tws.foldl (fun a w => bumpTime a w.speaker (w.«end» - w.start)) acc).lookup sid =
      if sid ∈ tws.map (fun w => w.speaker) then some (groupTotal tws sid) else none := by
  induction tws generalizing acc with
  | nil => simpa using h
  | cons w rest ih =>
    simp only [List.foldl_cons, List.map_cons, List.mem_cons]
    by_cases hs : w.speaker = sid
    · subst hs
      have hb := lookup_bumpTime_self acc w.speaker (w.«end» - w.start)
      rw [h] at hb
      simp only [Option.getD_none] at hb
      rw [lookup_foldl_bump_some rest _ _ _ hb, groupTotal_cons]
      simp
    · have hb := lookup_bumpTime_other acc w.speaker sid (w.«end» - w.start) (fun e => hs e.symm)
      rw [h] at hb
      rw [ih _ hb, groupTotal_cons, if_neg hs, zero_add]
      have : ¬ sid = w.speaker := fun e => hs e.symm
      simp [this]

/-- Folding the words over bumpTime keeps the key list free of
duplicates. -/
lemma nodup_keys_foldl (tws : List TranscriptWord) (acc : List (String × ℚ))
    (h : (acc.map Prod.fst).Nodup) :
    ((tws.foldl (fun a w => bumpTime a w.speaker (w.«end» - w.start)) acc).map Prod.fst).Nodup := by
  induction tws generalizing acc with
  | nil => simpa using h
  | cons w rest ih =>
    simp only [List.foldl_cons]
    apply ih
    rw [keys_bumpTime]
    by_cases hmem : w.speaker ∈ acc.map Prod.fst
    · simpa [hmem] using h
    · simp only [hmem, if_false]
      exact List.Nodup.append h (List.nodup_singleton _) (by simpa using hmem)

/-- bumpTime raises the sum of all totals by the added duration. -/
lemma sum_values_bumpTime (al : List (String × ℚ)) (k : String) (d : ℚ) :
    ((bumpTime al k d).map Prod.snd).sum = (al.map Prod.snd).sum + d := by
  induction al with
  | nil => simp [bumpTime]
  | cons a rest ih =>
    obtain ⟨k', v⟩ := a
    by_cases h : k' = k
    · subst h; simp [bumpTime]; ring
    · simp [bumpTime, h, ih]; ring

/-- The totals of the fold sum to the accumulator totals plus all word
durations. -/
lemma sum_values_foldl (tws : List TranscriptWord) (acc : List (String × ℚ)) :
    (((tws.foldl (fun a w => bumpTime a w.speaker (w.«end» - w.start)) acc)).map Prod.snd).sum =
      (acc.map Prod.snd).sum + (tws.map (fun w => w.«end» - w.start)).sum := by
  induction tws generalizing acc with
  | nil => simp
  | cons w rest ih =>
    simp only [List.foldl_cons, List.map_cons, List.sum_cons]
    rw [ih, sum_values_bumpTime]
    ring

/-- A lookup succeeds exactly on the keys of the association list. -/
lemma lookup_isSome_iff_mem_keys (al : List (String × ℚ)) (k : String) :
    (al.lookup k).isSome ↔ k ∈ al.map Prod.fst := by
  induction al with
  | nil => simp [List.lookup]
  | cons a rest ih =>
    obtain ⟨k', v⟩ := a
    by_cases h : k = k'
    · subst h; simp [List.lookup]
    · simp [List.lookup, beq_false_of_ne h, ih, h]

/-- With duplicate-free keys, membership determines the lookup result. -/
lemma lookup_eq_some_of_mem_nodup {al : List (String × ℚ)} (hnd : (al.map Prod.fst).Nodup)
    {k : String} {v : ℚ} (h : (k, v) ∈ al) : al.lookup k = some v := by
  induction al with
  | nil => simp at h
  | cons a rest ih =>
    obtain ⟨k', v'⟩ := a
    simp only [List.map_cons, List.nodup_cons] at hnd
    rcases List.mem_cons.mp h with heq | hmem
    · obtain ⟨h1, h2⟩ := Prod.mk.injEq .. ▸ heq
      subst h1; subst h2
      simp [List.lookup]
    · have hk : k ≠ k' := by
        rintro rfl
        exact hnd.1 (List.mem_map.mpr ⟨(k, v), hmem, rfl⟩)
      simp [List.lookup, beq_false_of_ne hk, ih hnd.2 hmem]

/-- Rounding each summand to hundredths moves a sum by at most 1/200 per
summand. -/
lemma abs_sum_round2_sub_sum (l : List ℚ) :
    |(l.map round2).sum - l.sum| ≤ l.length * (1/200) := by
  induction l with
  | nil => simp
  | cons x rest ih =>
    simp only [List.map_cons, List.sum_cons, List.length_cons]
    have h1 : |round2 x - x| ≤ 1/200 := by
      rw [abs_sub_comm]; exact abs_sub_round2 x
    have e : round2 x + (rest.map round2).sum - (x + rest.sum) =
        (round2 x - x) + ((rest.map round2).sum - rest.sum) := by ring
    rw [e]
    calc |(round2 x - x) + ((rest.map round2).sum - rest.sum)|
        ≤ |round2 x - x| + |(rest.map round2).sum - rest.sum| := abs_add _ _
      _ ≤ 1/200 + rest.length * (1/200) := by linarith
      _ = (rest.length + 1) * (1/200) := by ring
      _ = ((rest.length + 1 : ℕ) : ℚ) * (1/200) := by push_cast; ring

/-- C6: calculate_speaker_stats returns one entry per distinct speaker
label of the input words, each total_sec is the group sum of word durations
rounded to hundredths and therefore within 1/200 of the exact group sum,
the entries are sorted by total_sec descending, and the sum of all totals
is within 1/200 per speaker of the sum of all word durations. -/
theorem c6_speaker_stats (tws : List TranscriptWord) :
    ((calculate_speaker_stats tws).map (fun s => s.id)).Nodup ∧
    (∀ sid : String, sid ∈ (calculate_speaker_stats tws).map (fun s => s.id) ↔
      sid ∈ tws.map (fun w => w.speaker)) ∧
    (∀ st ∈ calculate_speaker_stats tws,
      st.total_sec = round2 (groupTotal tws st.id) ∧
      |st.total_sec - groupTotal tws st.id| ≤ 1/200) ∧
    List.Sorted statGE (calculate_speaker_stats tws) ∧
    |((calculate_speaker_stats tws).map (fun s => s.total_sec)).sum -
        (tws.map (fun w => w.«end» - w.start)).sum| ≤
      (calculate_speaker_stats tws).length * (1/200) := by
  have hperm : (calculate_speaker_stats tws).Perm
      ((speaker_times tws).map (fun p => ({ id := p.1, total_sec := round2 p.2 } : SpeakerStat))) :=
    List.perm_insertionSort _ _
  have hkeysnd : ((speaker_times tws).map Prod.fst).Nodup :=
    nodup_keys_foldl tws [] (by simp)
  have hmapid : ((speaker_times tws).map
      (fun p => ({ id := p.1, total_sec := round2 p.2 } : SpeakerStat))).map (fun s => s.id) =
      (speaker_times tws).map Prod.fst := by
    rw [List.map_map]; rfl
  have hlookup : ∀ sid, (speaker_times tws).lookup sid =
      if sid ∈ tws.map (fun w => w.speaker) then some (groupTotal tws sid) else none := by
    intro sid
    exact lookup_foldl_bump_none tws [] sid (by simp [List.lookup])
  have hmemkeys : ∀ sid, sid ∈ (speaker_times tws).map Prod.fst ↔
      sid ∈ tws.map (fun w => w.speaker) := by
    intro sid
    rw [← lookup_isSome_iff_mem_keys, hlookup]
    by_cases hmem : sid ∈ tws.map (fun w => w.speaker) <;> simp [hmem]
  refine ⟨?_, ?_, ?_, ?_, ?_⟩
  · rw [(hperm.map (fun s => s.id)).nodup_iff, hmapid]
    exact hkeysnd
  · intro sid
    rw [(hperm.map (fun s => s.id)).mem_iff, hmapid]
    exact hmemkeys sid
  · intro st hst
    have hst' := hperm.subset hst
    obtain ⟨p, hp, rfl⟩ := List.mem_map.mp hst'
    have hv : (speaker_times tws).lookup p.1 = some p.2 :=
      lookup_eq_some_of_mem_nodup hkeysnd (by simpa using hp)
    have hmem : p.1 ∈ tws.map (fun w => w.speaker) := by
      rw [← hmemkeys]
      exact List.mem_map.mpr ⟨p, hp, rfl⟩
    rw [hlookup, if_pos hmem] at hv
    have hv' : p.2 = groupTotal tws p.1 := by
      injection hv with hinj
      exact hinj.symm
    constructor
    · simp [hv']
    · simp only [hv']
      rw [abs_sub_comm]
      exact abs_sub_round2 _
  · exact List.sorted_insertionSort statGE _
  · have hsum1 : ((calculate_speaker_stats tws).map (fun s => s.total_sec)).sum =
        (((speaker_times tws).map Prod.snd).map round2).sum := by
      rw [(hperm.map (fun s => s.total_sec)).sum_eq]
      rw [List.map_map, List.map_map]
      rfl
    have hsum2 : (tws.map (fun w => w.«end» - w.start)).sum =
        ((speaker_times tws).map Prod.snd).sum := by
      have := sum_values_foldl tws []
      simpa using this.symm
    have hlen : (calculate_speaker_stats tws).length =
        ((speaker_times tws).map Prod.snd).length := by
      rw [hperm.length_eq]
      simp
    rw [hsum1, hsum2, hlen]
    exact abs_sum_round2_sub_sum _

/-- Witness for C6: the per-entry characterisation evaluated on a one-word
transcript. -/
theorem c6_witness :
    ({ id := "speaker_1", total_sec := 1 } : SpeakerStat).total_sec =
      round2 (groupTotal [{ word := "a".toList, start := 0, «end» := 1, speaker := "speaker_1" }]
        ({ id := "speaker_1", total_sec := 1 } : SpeakerStat).id) ∧
    |({ id := "speaker_1", total_sec := 1 } : SpeakerStat).total_sec -
        groupTotal [{ word := "a".toList, start := 0, «end» := 1, speaker := "speaker_1" }]
          ({ id := "speaker_1", total_sec := 1 } : SpeakerStat).id| ≤ 1/200 :=
  (c6_speaker_stats
    [{ word := "a".toList, start := 0, «end» := 1, speaker := "speaker_1" }]).2.2.1
    { id := "speaker_1", total_sec := 1 } (by with_unfolding_all decide)

/-- The synthesized words of a segment, entry by entry: token i of the
whitespace-split text spans the i-th of the equal length slices of the
segment. -/
lemma synthWords_get (seg : WhisperSegment) (i : ℕ) (hi : i < (synthWords seg).length)
    (hi' : i < (pythonSplit seg.text).length) :
    (synthWords seg).get ⟨i, hi⟩ =
      { word := (pythonSplit seg.text).get ⟨i, hi'⟩,
        start := seg.start + i * ((seg.«end» - seg.start) / (pythonSplit seg.text).length),
        «end» := seg.start + (i + 1) * ((seg.«end» - seg.start) / (pythonSplit seg.text).length) } := by
  have hn : (pythonSplit seg.text).length ≠ 0 :=
    Nat.pos_iff_ne_zero.mp (Nat.lt_of_le_of_lt (Nat.zero_le _) hi')
  simp only [synthWords, List.get_map, List.get_enum, if_neg hn]
  congr 1

lemma synthWords_length (seg : WhisperSegment) :
    (synthWords seg).length = (pythonSplit seg.text).length := by
  simp [synthWords]

/-- Consecutive synthesized words of one segment are contiguous: each ends
where the next begins. -/
lemma synthWords_chain (seg : WhisperSegment) :
    List.Chain' (fun a b => a.«end» = b.start) (synthWords seg) := by
  rw [List.chain'_iff_get]
  intro i h
  have hlen := synthWords_length seg
  have hi : i < (synthWords seg).length := Nat.lt_of_lt_of_le h (Nat.sub_le _ _)
  have hi1 : i + 1 < (synthWords seg).length := by omega
  have hi' : i < (pythonSplit seg.text).length := by omega
  have hi1' : i + 1 < (pythonSplit seg.text).length := by omega
  rw [synthWords_get seg i hi hi', synthWords_get seg (i + 1) hi1 hi1']
  push_cast
  ring

/-- When the segment text has at least one token, the synthesized words
start at the segment start and finish at the segment end. -/
lemma synthWords_span (seg : WhisperSegment)
    (hn : (pythonSplit seg.text).length ≠ 0) :
    (synthWords seg).head?.map (fun w => w.start) = some seg.start ∧
    ((synthWords seg).getLast?).map (fun w => w.«end») = some seg.«end» := by
  have hlen := synthWords_length seg
  have hpos : 0 < (synthWords seg).length := by omega
  constructor
  · have h0 : (0 : ℕ) < (synthWords seg).length := hpos
    have h0' : (0 : ℕ) < (pythonSplit seg.text).length := by omega
    have hne : synthWords seg ≠ [] := List.length_pos.mp hpos
    rw [List.head?_eq_head hne, ← List.get_mk_zero (List.length_pos.mpr hne),
      synthWords_get seg 0 h0 h0']
    simp
  · have hm : (synthWords seg).length - 1 < (synthWords seg).length := by omega
    have hm' : (synthWords seg).length - 1 < (pythonSplit seg.text).length := by omega
    rw [List.getLast?_eq_get? , List.get?_eq_get hm]
    rw [synthWords_get seg _ hm hm']
    simp only [Option.map_some']
    congr 1
    have h1 : ((((synthWords seg).length - 1 : ℕ) : ℚ) + 1) = ((pythonSplit seg.text).length : ℚ) := by
      rw [hlen]
      rw [Nat.cast_sub (Nat.one_le_iff_ne_zero.mpr hn)]
      ring
    rw [h1]
    have hq : ((pythonSplit seg.text).length : ℚ) ≠ 0 := Nat.cast_ne_zero.mpr hn
    field_simp

/-- C9: when no segment carries word-level timestamps, the engine first
synthesizes words by evenly dividing each segment duration among its
whitespace-delimited tokens and then runs the normal midpoint assignment on
them: the output is exactly the synthesized words annotated by the
assignment loop, token i of a segment with n tokens spans from
start + i(d/n) to start + (i+1)(d/n), consecutive synthesized words are
contiguous, and for a non-empty token list they cover the segment from its
start to its end. -/
theorem c9_word_synthesis (wr : WhisperResult) (spk : SpeakerSegments)
    (hnone : ∀ seg ∈ wr.segments, seg.words = none) :
    assign_speakers_to_words wr spk =
      (wr.segments.flatMap synthWords).map (annotateWord spk) ∧
    (∀ seg ∈ wr.segments,
      (synthWords seg).length = (pythonSplit seg.text).length ∧
      (∀ i (hi : i < (synthWords seg).length) (hi' : i < (pythonSplit seg.text).length),
        (synthWords seg).get ⟨i, hi⟩ =
          { word := (pythonSplit seg.text).get ⟨i, hi'⟩,
            start := seg.start + i * ((seg.«end» - seg.start) / (pythonSplit seg.text).length),
            «end» := seg.start + (i + 1) * ((seg.«end» - seg.start) / (pythonSplit seg.text).length) }) ∧
      List.Chain' (fun a b => a.«end» = b.start) (synthWords seg) ∧
      ((pythonSplit seg.text).length ≠ 0 →
        (synthWords seg).head?.map (fun w => w.start) = some seg.start ∧
        ((synthWords seg).getLast?).map (fun w => w.«end») = some seg.«end»)) := by
  constructor
  · have hempty : (wr.segments.filterMap (fun s => s.words)) = [] :=
      List.filterMap_eq_nil.mpr hnone
    simp [assign_speakers_to_words, extractAllWords, hempty]
  · intro seg _
    exact ⟨synthWords_length seg,
      fun i hi hi' => synthWords_get seg i hi hi',
      synthWords_chain seg,
      fun hn => synthWords_span seg hn⟩

/-- Witness for C9: the synthesis equation evaluated on a one-segment
result without word timestamps. -/
theorem c9_witness :
    assign_speakers_to_words
      { language := some "en",
        segments := [{ text := "a b".toList, start := 0, «end» := 10,
                       words := none, avg_logprob := none }] } [] =
      (({ language := some "en",
          segments := [{ text := "a b".toList, start := 0, «end» := 10,
                         words := none, avg_logprob := none }] } :
        WhisperResult).segments.flatMap synthWords).map (annotateWord []) :=
  (c9_word_synthesis _ [] (by decide)).1

/-- Elements surviving a first dropWhile pass are untouched by a second. -/
lemma dropWhile_dropWhile (p : Char → Bool) (l : List Char) :
    (l.dropWhile p).dropWhile p = l.dropWhile p := by
  induction l with
  | nil => rfl
  | cons a tl ih =>
    by_cases h : p a
    · simp [List.dropWhile_cons, h, ih]
    · simp [List.dropWhile_cons, h]

/-- The head surviving dropWhile fails the predicate. -/
lemma head?_dropWhile_not (p : Char → Bool) (l : List Char) (a : Char)
    (h : (l.dropWhile p).head? = some a) : p a = false := by
  induction l with
  | nil => simp [List.dropWhile] at h
  | cons b tl ih =>
    by_cases hb : p b
    · rw [List.dropWhile_cons, if_pos hb] at h
      exact ih h
    · rw [List.dropWhile_cons, if_neg hb] at h
      obtain rfl : b = a := by injection h
      exact Bool.not_eq_true _ ▸ (by simpa using hb)

/-- A stripped string does not begin with whitespace: dropping leading
whitespace from a pythonStrip result changes nothing. -/
lemma pythonStrip_no_leading (l : List Char) :
    (pythonStrip l).dropWhile Char.isWhitespace = pythonStrip l := by
  rw [List.dropWhile_eq_self_iff]
  intro hl
  set A := l.dropWhile Char.isWhitespace with hA
  set B := A.reverse.dropWhile Char.isWhitespace with hB
  have hstrip : pythonStrip l = B.reverse := rfl
  have hBne : B ≠ [] := by
    intro hnil
    rw [hstrip, hnil] at hl
    simp at hl
  have hhead : (pythonStrip l).head? = B.getLast? := by
    rw [hstrip, List.head?_reverse]
  have hsuffix : B <:+ A.reverse := List.dropWhile_suffix _
  obtain ⟨t, ht⟩ := hsuffix
  have hlastB : B.getLast? = A.head? := by
    have h1 : (t ++ B).getLast? = B.getLast? := by
      rw [List.getLast?_append]
      obtain ⟨b, hb⟩ := List.exists_mem_of_ne_nil B hBne
      cases hgl : B.getLast? with
      | none => exact absurd (List.getLast?_eq_none_iff.mp hgl) hBne
      | some x => simp
    rw [← h1, ht, List.getLast?_reverse]
  obtain ⟨a, ha⟩ : ∃ a, A.head? = some a := by
    cases hh : A.head? with
    | none =>
        exfalso
        have hAnil : A = [] := List.head?_eq_none_iff.mp hh
        apply hBne
        rw [hB, hAnil]
        rfl
    | some x => exact ⟨x, rfl⟩
  have hpa : Char.isWhitespace a = false := head?_dropWhile_not _ l a (hA ▸ ha)
  have hget : (pythonStrip l).get ⟨0, hl⟩ = a := by
    have hne : pythonStrip l ≠ [] := List.length_pos.mp hl
    have := List.head?_eq_head hne
    rw [hhead, hlastB, ha] at this
    rw [List.get_mk_zero]
    injection this.symm
  rw [hget, hpa]
  simp

/-- Stripping is idempotent. -/
lemma pythonStrip_idem (l : List Char) : pythonStrip (pythonStrip l) = pythonStrip l := by
  have h1 := pythonStrip_no_leading l
  show (((pythonStrip l).dropWhile Char.isWhitespace).reverse.dropWhile
    Char.isWhitespace).reverse = pythonStrip l
  rw [h1]
  have h2 : (pythonStrip l).reverse =
      ((l.dropWhile Char.isWhitespace).reverse).dropWhile Char.isWhitespace := by
    rw [pythonStrip, List.reverse_reverse]
  rw [h2, dropWhile_dropWhile, ← h2, List.reverse_reverse]

/-- C10: every annotated word emitted by assign_speakers_to_words carries
the raw token stripped of surrounding whitespace and the raw times rounded
to hundredths: entry i of the output is exactly the stripped and rounded
image of entry i of the raw word list, every emitted word text is a fixed
point of stripping, every emitted time is an integer number of hundredths,
and the persistence step stores the transcript rows verbatim. -/
theorem c10_strip_and_round (wr : WhisperResult) (spk : SpeakerSegments) :
    (assign_speakers_to_words wr spk).length = (extractAllWords wr).length ∧
    (∀ i (hi : i < (assign_speakers_to_words wr spk).length)
        (hi' : i < (extractAllWords wr).length),
      (assign_speakers_to_words wr spk).get ⟨i, hi⟩ =
        { word := pythonStrip ((extractAllWords wr).get ⟨i, hi'⟩).word,
          start := round2 ((extractAllWords wr).get ⟨i, hi'⟩).start,
          «end» := round2 ((extractAllWords wr).get ⟨i, hi'⟩).«end»,
          speaker := assignSpeaker spk
            ((((extractAllWords wr).get ⟨i, hi'⟩).start +
              ((extractAllWords wr).get ⟨i, hi'⟩).«end») / 2) }) ∧
    (∀ w ∈ assign_speakers_to_words wr spk,
      pythonStrip w.word = w.word ∧
      (∃ z : ℤ, w.start = (z : ℚ) / 100) ∧
      (∃ z : ℤ, w.«end» = (z : ℚ) / 100)) ∧
    (∀ r : ResultObj, (persistCompleted r).word_rows = r.transcript) := by
  refine ⟨by simp [assign_speakers_to_words], ?_, ?_, fun r => rfl⟩
  · intro i hi hi'
    simp only [assign_speakers_to_words, List.get_map, annotateWord]
  · intro w hw
    obtain ⟨v, hv, rfl⟩ := List.mem_map.mp hw
    refine ⟨pythonStrip_idem v.word, ⟨roundHalfEven (100 * v.start), rfl⟩,
      ⟨roundHalfEven (100 * v.«end»), rfl⟩⟩

/-- Witness for C10: the fixed-point and hundredths properties evaluated on
a concrete emitted word. -/
theorem c10_witness :
    pythonStrip
      ({ word := "hi".toList, start := 0, «end» := 1, speaker := "speaker_1" } :
        TranscriptWord).word =
      ({ word := "hi".toList, start := 0, «end» := 1, speaker := "speaker_1" } :
        TranscriptWord).word ∧
    (∃ z : ℤ,
      ({ word := "hi".toList, start := 0, «end» := 1, speaker := "speaker_1" } :
        TranscriptWord).start = (z : ℚ) / 100) ∧
    (∃ z : ℤ,
      ({ word := "hi".toList, start := 0, «end» := 1, speaker := "speaker_1" } :
        TranscriptWord).«end» = (z : ℚ) / 100) :=
  (c10_strip_and_round
    { language := some "en",
      segments := [{ text := "hi".toList, start := 0, «end» := 1,
                     words := some [{ word := "hi".toList, start := 0, «end» := 1 }],
                     avg_logprob := none }] } []).2.2.1
    { word := "hi".toList, start := 0, «end» := 1, speaker := "speaker_1" }
    (by with_unfolding_all decide)

/-- Once the current time has reached the recording end, the fallback loop
emits nothing. -/
lemma fallbackLoop_stop (fuel : ℕ) (c d : ℚ) (s : ℕ) (h : ¬ c < d) :
    fallbackLoop fuel c d s = [] := by
  cases fuel with
  | zero => rfl
  | succ fuel => simp [fallbackLoop, h]

/-- One 30-second step of the fallback loop consumes one unit of the ceiling
fuel measure. -/
lemma fallbackLoop_fuel_step (c d : ℚ) (fuel : ℕ) (h30 : c + 30 < d)
    (hfuel : (⌈(d - c) / 30⌉).toNat ≤ fuel + 1) :
    (⌈(d - (c + 30)) / 30⌉).toNat ≤ fuel := by
  have he : (d - (c + 30)) / 30 = (d - c) / 30 - ((1 : ℤ) : ℚ) := by push_cast; ring
  have hceil : ⌈(d - (c + 30)) / 30⌉ = ⌈(d - c) / 30⌉ - 1 := by
    rw [he, Int.ceil_sub_int]
  have hpos : 0 < ⌈(d - c) / 30⌉ :=
    Int.ceil_pos.mpr (div_pos (by linarith) (by norm_num))
  omega

/-- The window list of the fallback loop spans the recording: with enough
fuel the list is non-empty, starts at the current time, ends at the
recording end, is contiguous, and each window is non-degenerate of length
30 except possibly the final one ending at the recording end. -/
lemma fallbackLoop_span (fuel : ℕ) : ∀ (c d : ℚ) (s : ℕ),
    (⌈(d - c) / 30⌉).toNat ≤ fuel → c < d →
    fallbackLoop fuel c d s ≠ [] ∧
    (fallbackLoop fuel c d s).head?.map (fun w => w.2.1) = some c ∧
    ((fallbackLoop fuel c d s).getLast?).map (fun w => w.2.2) = some d ∧
    List.Chain' (fun a b => a.2.2 = b.2.1) (fallbackLoop fuel c d s) ∧
    ∀ w ∈ fallbackLoop fuel c d s, w.2.1 < w.2.2 ∧ (w.2.2 = w.2.1 + 30 ∨ w.2.2 = d) := by
  induction fuel with
  | zero =>
    intro c d s hfuel hc
    exfalso
    have hpos : 0 < ⌈(d - c) / 30⌉ :=
      Int.ceil_pos.mpr (div_pos (by linarith) (by norm_num))
    omega
  | succ fuel ih =>
    intro c d s hfuel hc
    rcases le_or_lt d (c + 30) with hle | hlt
    · have he : min (c + 30) d = d := min_eq_right hle
      have hrest : fallbackLoop fuel d d (if s = 1 then 2 else 1) = [] :=
        fallbackLoop_stop _ _ _ _ (lt_irrefl d)
      simp only [fallbackLoop, if_pos hc, he, hrest]
      refine ⟨by simp, by simp, by simp, by simp, ?_⟩
      intro w hw
      simp only [List.mem_singleton] at hw
      subst hw
      exact ⟨hc, Or.inr rfl⟩
    · have he : min (c + 30) d = c + 30 := min_eq_left (le_of_lt hlt)
      have hfuel' : (⌈(d - (c + 30)) / 30⌉).toNat ≤ fuel :=
        fallbackLoop_fuel_step c d fuel hlt hfuel
      obtain ⟨hne, hhead, hlast, hchain, hmem⟩ :=
        ih (c + 30) d (if s = 1 then 2 else 1) hfuel' (by linarith)
      simp only [fallbackLoop, if_pos hc, he]
      refine ⟨by simp, by simp, ?_, ?_, ?_⟩
      · cases hrest : fallbackLoop fuel (c + 30) d (if s = 1 then 2 else 1) with
        | nil => exact absurd hrest hne
        | cons y ys =>
          rw [List.getLast?_cons_cons]
          rw [hrest] at hlast
          exact hlast
      · rw [List.chain'_cons']
        constructor
        · intro y hy
          have : (fallbackLoop fuel (c + 30) d (if s = 1 then 2 else 1)).head?.map
              (fun w => w.2.1) = some (c + 30) := hhead
          cases hh : (fallbackLoop fuel (c + 30) d (if s = 1 then 2 else 1)).head? with
          | none => rw [hh] at hy; simp at hy
          | some z =>
            rw [hh] at hy this
            simp only [Option.mem_def, Option.some.injEq] at hy
            subst hy
            simp only [Option.map_some', Option.some.injEq] at this
            exact this.symm
        · exact hchain
      · intro w hw
        rcases List.mem_cons.mp hw with rfl | hw'
        · refine ⟨?_, Or.inl rfl⟩
          show c < c + 30
          linarith
        · exact hmem w hw'

/-- The labels of the fallback loop: starting from speaker id 1 or 2, all
emitted labels are speaker_1 or speaker_2, adjacent windows carry different
labels, and the first window carries the label of the starting id. -/
lemma fallbackLoop_labels (fuel : ℕ) : ∀ (c d : ℚ) (s : ℕ), (s = 1 ∨ s = 2) →
    (∀ w ∈ fallbackLoop fuel c d s, w.1 = "speaker_1" ∨ w.1 = "speaker_2") ∧
    List.Chain' (fun a b => a.1 ≠ b.1) (fallbackLoop fuel c d s) ∧
    (∀ w ∈ (fallbackLoop fuel c d s).head?, w.1 = "speaker_" ++ toString s) := by
  induction fuel with
  | zero =>
    intro c d s _
    exact ⟨by simp [fallbackLoop], by simp [fallbackLoop], by simp [fallbackLoop]⟩
  | succ fuel ih =>
    intro c d s hs
    by_cases hc : c < d
    · have hs' : (if s = 1 then 2 else 1) = 2 ∨ (if s = 1 then 2 else 1) = 1 := by
        rcases hs with rfl | rfl <;> simp
      obtain ⟨ihmem, ihchain, ihhead⟩ :=
        ih (min (c + 30) d) d (if s = 1 then 2 else 1) hs'.symm
      simp only [fallbackLoop, if_pos hc]
      refine ⟨?_, ?_, ?_⟩
      · intro w hw
        rcases List.mem_cons.mp hw with rfl | hw'
        · rcases hs with rfl | rfl
          · exact Or.inl (show "speaker_" ++ toString 1 = "speaker_1" by decide)
          · exact Or.inr (show "speaker_" ++ toString 2 = "speaker_2" by decide)
        · exact ihmem w hw'
      · rw [List.chain'_cons']
        refine ⟨?_, ihchain⟩
        intro y hy
        have hy1 := ihhead y hy
        show "speaker_" ++ toString s ≠ y.1
        rw [hy1]
        rcases hs with rfl | rfl <;> decide
      · intro w hw
        simp only [List.head?_cons, Option.mem_def, Option.some.injEq] at hw
        subst hw
        rfl
    · have h0 : fallbackLoop (fuel + 1) c d s = [] := by simp [fallbackLoop, hc]
      rw [h0]
      exact ⟨by simp, by simp, by simp⟩

/-- C4 (corrected): perform_diarization never raises, but the two
fallbacks differ.  When the diarization pipeline object is unavailable the
result groups alternating windows covering the recording: the window list is
non-empty, starts at 0, ends at the duration, is contiguous, has windows of
exactly 30 seconds except possibly the last one ending at the duration, uses
only the labels speaker_1 and speaker_2 with adjacent windows labelled
differently, starting with speaker_1.  When the pipeline raises, the result
is instead the single-speaker mapping with the one interval (0, 999999).  In
both cases a mapping is returned, and a run whose pipeline stage succeeds
and whose remaining steps do not raise ends with status completed. -/
theorem c4_diarization_fallbacks :
    (∀ (msg : String) (duration : ℚ),
      perform_diarization (DiarOutcome.failure msg) duration = [("speaker_1", [(0, 999999)])]) ∧
    (∀ duration : ℚ, 0 < duration →
      perform_diarization DiarOutcome.unavailable duration =
        groupPairs (fallbackSegments duration) ∧
      fallbackSegments duration ≠ [] ∧
      (fallbackSegments duration).head?.map (fun w => w.2.1) = some 0 ∧
      ((fallbackSegments duration).getLast?).map (fun w => w.2.2) = some duration ∧
      List.Chain' (fun a b => a.2.2 = b.2.1) (fallbackSegments duration) ∧
      (∀ w ∈ fallbackSegments duration, w.2.1 < w.2.2 ∧ (w.2.2 = w.2.1 + 30 ∨ w.2.2 = duration)) ∧
      (∀ w ∈ fallbackSegments duration, w.1 = "speaker_1" ∨ w.1 = "speaker_2") ∧
      List.Chain' (fun a b => a.1 ≠ b.1) (fallbackSegments duration) ∧
      (∀ w ∈ (fallbackSegments duration).head?, w.1 = "speaker_1")) ∧
    (∀ (expf : ℚ → ℚ) (duration : ℚ) (wr : WhisperResult) (outcome : DiarOutcome),
      ((runTrace none (Except.ok (process_audio expf duration wr outcome)) none none).getLast?).map
        (fun j => j.status) = some JobStatus.completed) := by
  refine ⟨fun _ _ => rfl, ?_, fun _ _ _ _ => rfl⟩
  intro duration hd
  have hfuel : (⌈(duration - 0) / 30⌉).toNat ≤ ⌈duration / 30⌉.toNat := by
    rw [sub_zero]
  obtain ⟨hne, hhead, hlast, hchain, hmem⟩ :=
    fallbackLoop_span (⌈duration / 30⌉.toNat) 0 duration 1 hfuel hd
  obtain ⟨lmem, lchain, lhead⟩ :=
    fallbackLoop_labels (⌈duration / 30⌉.toNat) 0 duration 1 (Or.inl rfl)
  refine ⟨rfl, hne, hhead, hlast, hchain, hmem, lmem, lchain, ?_⟩
  intro w hw
  have := lhead w hw
  rw [this]
  decide

/-- C4 counterexample: when the diarization pipeline raises (as opposed to
being unavailable), perform_diarization does not return the 30-second
two-speaker alternation over the recording of duration 100 but the
single-speaker interval (0, 999999), which neither ends at the duration nor
is at most 30 seconds long. -/
theorem c4_counterexample :
    perform_diarization (DiarOutcome.failure "boom") 100 = [("speaker_1", [(0, 999999)])] ∧
    (999999 : ℚ) ≠ 100 ∧ ¬ ((999999 : ℚ) - 0 ≤ 30) :=
  ⟨rfl, by norm_num, by norm_num⟩

/-- Witness for C4: the window list of a 70-second recording ends at 70. -/
theorem c4_witness :
    (0 : ℚ) < 70 ∧
    ((fallbackSegments 70).getLast?).map (fun w => w.2.2) = some 70 :=
  ⟨by norm_num, (c4_diarization_fallbacks.2.1 70 (by norm_num)).2.2.2.1⟩

/-- A falsy-defaulting numeric column with default zero returns the stored
value even when that value is zero. -/
lemma pyOrQ_zero_default (q : ℚ) : pyOrQ (some q) 0 = q := by
  by_cases h : q = 0 <;> simp [pyOrQ, h]

/-- A nonzero stored numeric value survives the falsy default. -/
lemma pyOrQ_some_of_ne (q d : ℚ) (h : q ≠ 0) : pyOrQ (some q) d = q := by
  simp [pyOrQ, h]

/-- A non-empty stored string survives the falsy default. -/
lemma pyOrStr_some_of_ne (s d : String) (h : s ≠ "") : pyOrStr (some s) d = s := by
  simp [pyOrStr, h]

/-- C5 (corrected): for a successfully processed job whose transcript is
ordered by start time, whose language is non-empty and whose confidence is
nonzero, the result rebuilt from storage by get_transcription_result equals
the freshly computed result of process_audio field by field: the falsy
defaults of the read path cannot fire, the word rows re-sorted by start time
are unchanged, and the speaker rows re-sorted by total seconds descending
are unchanged because calculate_speaker_stats already sorts them. -/
theorem c5_roundtrip (expf : ℚ → ℚ) (duration : ℚ) (wr : WhisperResult) (outcome : DiarOutcome)
    (hsorted : List.Sorted wordLE (process_audio expf duration wr outcome).transcript)
    (hlang : (process_audio expf duration wr outcome).language ≠ "")
    (hconf : (process_audio expf duration wr outcome).confidence ≠ 0) :
    get_transcription_result (persistCompleted (process_audio expf duration wr outcome)) =
      process_audio expf duration wr outcome := by
  set r := process_audio expf duration wr outcome with hr
  have hspk : List.insertionSort statGE r.speakers = r.speakers := by
    apply List.Sorted.insertionSort_eq
    rw [hr]
    exact List.sorted_insertionSort statGE _
  have htr : List.insertionSort wordLE r.transcript = r.transcript :=
    List.Sorted.insertionSort_eq hsorted
  clear_value r
  obtain ⟨lang, dur, tr, spk, conf⟩ := r
  simp only [get_transcription_result, persistCompleted] at *
  rw [ResultObj.mk.injEq]
  exact ⟨pyOrStr_some_of_ne _ _ hlang, pyOrQ_zero_default _, htr, hspk,
    pyOrQ_some_of_ne _ _ hconf⟩

/-- C5 counterexample: a completed job whose Whisper result carries the
empty-string language is rebuilt with language en by the falsy default of
get_transcription_result, so the read-from-store result differs from the
freshly computed one. -/
theorem c5_counterexample :
    (get_transcription_result (persistCompleted (process_audio (fun _ => 1) 1
      { language := some "",
        segments := [{ text := "hi".toList, start := 0, «end» := 1,
                       words := some [{ word := "hi".toList, start := 0, «end» := 1 }],
                       avg_logprob := none }] }
      (DiarOutcome.failure "x")))).language = "en" ∧
    (process_audio (fun _ => 1) 1
      { language := some "",
        segments := [{ text := "hi".toList, start := 0, «end» := 1,
                       words := some [{ word := "hi".toList, start := 0, «end» := 1 }],
                       avg_logprob := none }] }
      (DiarOutcome.failure "x")).language = "" ∧
    get_transcription_result (persistCompleted (process_audio (fun _ => 1) 1
      { language := some "",
        segments := [{ text := "hi".toList, start := 0, «end» := 1,
                       words := some [{ word := "hi".toList, start := 0, «end» := 1 }],
                       avg_logprob := none }] }
      (DiarOutcome.failure "x"))) ≠ process_audio (fun _ => 1) 1
      { language := some "",
        segments := [{ text := "hi".toList, start := 0, «end» := 1,
                       words := some [{ word := "hi".toList, start := 0, «end» := 1 }],
                       avg_logprob := none }] }
      (DiarOutcome.failure "x") := by
  refine ⟨by with_unfolding_all decide, by with_unfolding_all decide, ?_⟩
  intro h
  have h2 := congrArg ResultObj.language h
  rw [show (get_transcription_result (persistCompleted (process_audio (fun _ => 1) 1
      { language := some "",
        segments := [{ text := "hi".toList, start := 0, «end» := 1,
                       words := some [{ word := "hi".toList, start := 0, «end» := 1 }],
                       avg_logprob := none }] }
      (DiarOutcome.failure "x")))).language = "en" from by with_unfolding_all decide] at h2
  rw [show (process_audio (fun _ => 1) 1
      { language := some "",
        segments := [{ text := "hi".toList, start := 0, «end» := 1,
                       words := some [{ word := "hi".toList, start := 0, «end» := 1 }],
                       avg_logprob := none }] }
      (DiarOutcome.failure "x")).language = "" from by with_unfolding_all decide] at h2
  exact absurd h2 (by decide)

/-- Witness for C5: the round trip evaluated on a one-word job with
non-empty language and nonzero confidence. -/
theorem c5_witness :
    get_transcription_result (persistCompleted (process_audio (fun _ => 1) 1
      { language := some "en",
        segments := [{ text := "hi".toList, start := 0, «end» := 1,
                       words := some [{ word := "hi".toList, start := 0, «end» := 1 }],
                       avg_logprob := none }] }
      (DiarOutcome.failure "x"))) = process_audio (fun _ => 1) 1
      { language := some "en",
        segments := [{ text := "hi".toList, start := 0, «end» := 1,
                       words := some [{ word := "hi".toList, start := 0, «end» := 1 }],
                       avg_logprob := none }] }
      (DiarOutcome.failure "x") :=
  c5_roundtrip (fun _ => 1) 1
    { language := some "en",
      segments := [{ text := "hi".toList, start := 0, «end» := 1,
                     words := some [{ word := "hi".toList, start := 0, «end» := 1 }],
                     avg_logprob := none }] }
    (DiarOutcome.failure "x")
    (by with_unfolding_all decide) (by with_unfolding_all decide)
    (by with_unfolding_all decide)
